import Mathlib

/-!
Verification of the Arabic grammatical-error-correction service.

Strings are modelled as `List Char`. Python string operations used by the
source are embedded as executable functions on character lists.
-/

namespace AGEC

/-- Whitespace test on a character, modelling the character class stripped by
Python `str.strip()` with no arguments. -/
def ws (c : Char) : Bool := c.isWhitespace

/-- Strip leading whitespace, as in Python `str.lstrip()`. -/
def trimLeft (l : List Char) : List Char := l.dropWhile ws

/-- Strip trailing whitespace, as in Python `str.rstrip()`. -/
def trimRight (l : List Char) : List Char := (l.reverse.dropWhile ws).reverse

/-- Python `str.strip()`: remove leading and trailing whitespace. -/
def pyStrip (l : List Char) : List Char := trimLeft (trimRight l)

/-- Python `pat in s` substring test. -/
def containsSub (pat : List Char) : List Char → Bool
  | [] => pat.isPrefixOf ([] : List Char)
  | c :: t => pat.isPrefixOf (c :: t) || containsSub pat t

/-- Python `s[s.find(pat) + len(pat):]`: the suffix of `s` after the first
occurrence of `pat` (meaningful when `pat` occurs in `s`). -/
def afterFirst (pat : List Char) : List Char → List Char
  | [] => []
  | c :: t => if pat.isPrefixOf (c :: t) then (c :: t).drop pat.length else afterFirst pat t

/-- The end-of-turn marker string removed by the extraction routine. -/
def eot : List Char := "<end_of_turn>".toList

/-- Fuelled scanner behind `removeEot`; the fuel (at least the length of the
list) only forces structural recursion, the scan itself follows Python
`str.replace`: left-to-right, non-overlapping. -/
def removeEotF : Nat → List Char → List Char
  | 0, l => l
  | _ + 1, [] => []
  | n + 1, c :: t =>
    if eot.isPrefixOf (c :: t) then removeEotF n ((c :: t).drop eot.length)
    else c :: removeEotF n t

/-- Python `s.replace("<end_of_turn>", "")`: delete every (left-to-right,
non-overlapping) occurrence of the end-of-turn marker. -/
def removeEot (l : List Char) : List Char := removeEotF l.length l

/-- The primary role marker searched for by `extract_model_response`. -/
def marker1 : List Char := "\nmodel\n".toList

/-- The alternative role marker searched for by `extract_model_response`. -/
def marker2 : List Char := "model\n".toList

/-- Embedding of `CorrectionService.extract_model_response` (identical to the
module-level `extract_model_response` in `extract_model_response.py`): find the
first role marker, take the text after it, strip, delete end-of-turn markers,
strip again; with a fallback to the alternative marker, and to the stripped
full text when no marker occurs. -/
def extract_model_response (generated_text : List Char) : List Char :=
  if containsSub marker1 generated_text then
    pyStrip (removeEot (pyStrip (afterFirst marker1 generated_text)))
  else if containsSub marker2 generated_text then
    pyStrip (removeEot (pyStrip (afterFirst marker2 generated_text)))
  else
    pyStrip generated_text

/-- The extraction function as the specification describes it: the substring
after the first occurrence of the role marker, with every end-of-turn marker
removed and surrounding whitespace trimmed; the trimmed input when no marker
occurs. Stated for comparison with `extract_model_response`. -/
def specExtract (s : List Char) : List Char :=
  if containsSub marker1 s then
    pyStrip (removeEot (afterFirst marker1 s))
  else if containsSub marker2 s then
    pyStrip (removeEot (afterFirst marker2 s))
  else
    pyStrip s

/-! Auxiliary facts about whitespace stripping and marker removal. -/

/-- All characters of a list are whitespace. -/
def allWs (l : List Char) : Prop := ∀ c ∈ l, ws c = true

theorem dropWhile_ws_append {w : List Char} (hw : allWs w) (l : List Char) :
    (w ++ l).dropWhile ws = l.dropWhile ws := by
  induction w with
  | nil => rfl
  | cons c w ih =>
    have hc : ws c = true := hw c (List.mem_cons_self _ _)
    have hw' : allWs w := fun x hx => hw x (List.mem_cons_of_mem _ hx)
    simp [List.dropWhile_cons, hc, ih hw']

theorem dropWhile_ws_of_allWs {w : List Char} (hw : allWs w) : w.dropWhile ws = [] := by
  simpa using dropWhile_ws_append hw []

theorem trimLeft_ws_append {w : List Char} (hw : allWs w) (l : List Char) :
    trimLeft (w ++ l) = trimLeft l :=
  dropWhile_ws_append hw l

theorem trimRight_append_ws {w : List Char} (hw : allWs w) (l : List Char) :
    trimRight (l ++ w) = trimRight l := by
  unfold trimRight
  rw [List.reverse_append, dropWhile_ws_append (by simpa [allWs] using hw)]

theorem pyStrip_append_ws {w : List Char} (hw : allWs w) (l : List Char) :
    pyStrip (l ++ w) = pyStrip l := by
  unfold pyStrip
  rw [trimRight_append_ws hw]

theorem pyStrip_ws_append {w : List Char} (hw : allWs w) (l : List Char) :
    pyStrip (w ++ l) = pyStrip l := by
  rcases hrev : l.reverse.dropWhile ws with _ | ⟨c, t⟩
  · have hl : allWs l := by
      have := (List.dropWhile_eq_nil_iff).1 hrev
      intro c hc
      exact this c (by simpa using hc)
    have h1 : pyStrip (w ++ l) = [] := by
      have hall : allWs (l.reverse ++ w.reverse) := by
        intro c hc
        rcases List.mem_append.1 hc with h | h
        · exact hl c (by simpa using h)
        · exact hw c (by simpa using h)
      unfold pyStrip trimLeft trimRight
      rw [List.reverse_append, dropWhile_ws_of_allWs hall]
      rfl
    have h2 : pyStrip l = [] := by
      unfold pyStrip trimLeft trimRight
      rw [hrev]; rfl
    rw [h1, h2]
  · have hne : l.reverse.dropWhile ws ≠ [] := by rw [hrev]; simp
    have : trimRight (w ++ l) = w ++ trimRight l := by
      unfold trimRight
      rw [List.reverse_append, List.dropWhile_append]
      simp only [hrev]
      simp
    unfold pyStrip
    rw [this, trimLeft_ws_append hw]

theorem removeEotF_congr :
    ∀ (n m : Nat) (l : List Char), l.length ≤ n → l.length ≤ m →
      removeEotF n l = removeEotF m l := by
  intro n
  induction n with
  | zero =>
    intro m l hn _
    have : l = [] := List.length_eq_zero.1 (Nat.le_zero.1 hn)
    subst this
    cases m <;> rfl
  | succ n ih =>
    intro m l hn hm
    cases l with
    | nil => cases m <;> rfl
    | cons c t =>
      have hm1 : 1 ≤ m := le_trans (by simp) hm
      obtain ⟨m', rfl⟩ : ∃ m', m = m' + 1 := ⟨m - 1, by omega⟩
      have htn : t.length ≤ n := by simpa using hn
      have htm : t.length ≤ m' := by simpa using hm
      show (if eot.isPrefixOf (c :: t) then removeEotF n ((c :: t).drop eot.length)
        else c :: removeEotF n t) =
        (if eot.isPrefixOf (c :: t) then removeEotF m' ((c :: t).drop eot.length)
        else c :: removeEotF m' t)
      have hdl : ((c :: t).drop eot.length).length ≤ t.length := by
        have he : 1 ≤ eot.length := by decide
        simp only [List.length_drop, List.length_cons]
        omega
      cases eot.isPrefixOf (c :: t) with
      | true =>
        simp only [if_pos rfl]
        exact ih _ _ (le_trans hdl htn) (le_trans hdl htm)
      | false =>
        simp only [Bool.false_eq_true, if_false]
        rw [ih _ _ htn htm]

theorem removeEot_nil : removeEot [] = [] := rfl

theorem removeEot_cons (c : Char) (t : List Char) :
    removeEot (c :: t) =
      if eot.isPrefixOf (c :: t) then removeEot ((c :: t).drop eot.length)
      else c :: removeEot t := by
  show (if eot.isPrefixOf (c :: t) then removeEotF t.length ((c :: t).drop eot.length)
    else c :: removeEotF t.length t) = _
  have hdl : ((c :: t).drop eot.length).length ≤ t.length := by
    have he : 1 ≤ eot.length := by decide
    simp only [List.length_drop, List.length_cons]
    omega
  cases eot.isPrefixOf (c :: t) with
  | true =>
    simp only [if_pos rfl]
    exact removeEotF_congr _ _ _ hdl le_rfl
  | false =>
    simp only [Bool.false_eq_true, if_false]
    rfl

theorem pyStrip_exists_sandwich (l : List Char) :
    ∃ w₁ w₂, allWs w₁ ∧ allWs w₂ ∧ l = w₁ ++ pyStrip l ++ w₂ := by
  refine ⟨(trimRight l).takeWhile ws, (l.reverse.takeWhile ws).reverse, ?_, ?_, ?_⟩
  · intro c hc
    exact List.mem_takeWhile_imp hc
  · intro c hc
    exact List.mem_takeWhile_imp (by simpa using hc)
  · have h2 : trimRight l ++ (l.reverse.takeWhile ws).reverse = l := by
      rw [trimRight, ← List.reverse_append, List.takeWhile_append_dropWhile,
        List.reverse_reverse]
    have h1 : (trimRight l).takeWhile ws ++ pyStrip l = trimRight l := by
      simp only [pyStrip, trimLeft]
      exact List.takeWhile_append_dropWhile ws (trimRight l)
    calc l = trimRight l ++ (l.reverse.takeWhile ws).reverse := h2.symm
      _ = ((trimRight l).takeWhile ws ++ pyStrip l) ++ (l.reverse.takeWhile ws).reverse := by
          rw [h1]
      _ = (trimRight l).takeWhile ws ++ pyStrip l ++ (l.reverse.takeWhile ws).reverse := by
          simp [List.append_assoc]

/-- No character of the end-of-turn marker is whitespace. -/
theorem eot_noWs : ∀ c ∈ eot, ws c = false := by decide

theorem eot_ne_nil : eot ≠ [] := by decide

theorem not_isPrefixOf_of_ws {pat : List Char} (hn : ∀ c ∈ pat, ws c = false)
    (hne : pat ≠ []) {c : Char} (hc : ws c = true) (r : List Char) :
    pat.isPrefixOf (c :: r) = false := by
  cases pat with
  | nil => exact absurd rfl hne
  | cons p pt =>
    cases h : (p :: pt).isPrefixOf (c :: r) with
    | false => rfl
    | true =>
      exfalso
      have hp : (p :: pt) <+: (c :: r) := List.isPrefixOf_iff_prefix.1 h
      have hpc : p = c := (List.cons_prefix_cons.1 hp).1
      have hnp : ws p = false := hn p (List.mem_cons_self _ _)
      rw [hpc, hc] at hnp
      exact absurd hnp (by simp)

theorem removeEot_ws_append {w : List Char} (hw : allWs w) (l : List Char) :
    removeEot (w ++ l) = w ++ removeEot l := by
  induction w with
  | nil => rfl
  | cons c t ih =>
    have hc : ws c = true := hw c (List.mem_cons_self _ _)
    have ht : allWs t := fun x hx => hw x (List.mem_cons_of_mem _ hx)
    show removeEot (c :: (t ++ l)) = c :: (t ++ removeEot l)
    rw [removeEot_cons, not_isPrefixOf_of_ws eot_noWs eot_ne_nil hc, ih ht]
    simp

theorem removeEot_of_allWs {w : List Char} (hw : allWs w) : removeEot w = w := by
  have h := removeEot_ws_append hw []
  simp only [List.append_nil, removeEot_nil] at h
  exact h

theorem isPrefixOf_append_ws {pat x w : List Char} (hn : ∀ c ∈ pat, ws c = false)
    (hw : allWs w) (h : pat.isPrefixOf (x ++ w) = true) : pat.isPrefixOf x = true := by
  rw [ List.isPrefixOf_iff_prefix] at h ⊢
  induction pat generalizing x with
  | nil => exact List.nil_prefix
  | cons p pt ih =>
    cases x with
    | nil =>
      exfalso
      have hpw : p ∈ w := h.subset (List.mem_cons_self _ _)
      have h1 := hw p hpw
      rw [hn p (List.mem_cons_self _ _)] at h1
      exact Bool.false_ne_true h1
    | cons a xt =>
      have h' := List.cons_prefix_cons.1 h
      have hpt : ∀ c ∈ pt, ws c = false := fun c hc => hn c (List.mem_cons_of_mem _ hc)
      exact List.cons_prefix_cons.2 ⟨h'.1, ih hpt h'.2⟩

theorem isPrefixOf_mono_append {pat x : List Char} (w : List Char)
    (h : pat.isPrefixOf x = true) : pat.isPrefixOf (x ++ w) = true := by
  rw [ List.isPrefixOf_iff_prefix] at h ⊢
  exact h.trans (List.prefix_append x w)

theorem removeEot_append_ws {w : List Char} (hw : allWs w) (l : List Char) :
    removeEot (l ++ w) = removeEot l ++ w := by
  generalize hn : l.length = n
  induction n using Nat.strong_induction_on generalizing l with
  | _ n ih =>
    cases l with
    | nil => simp [removeEot_of_allWs hw, removeEot_nil]
    | cons c t =>
      subst hn
      cases hpre : eot.isPrefixOf (c :: t) with
      | true =>
        have hlen : eot.length ≤ (c :: t).length :=
          ( List.isPrefixOf_iff_prefix.1 hpre).length_le
        have hpre' : eot.isPrefixOf (c :: (t ++ w)) = true := by
          have := isPrefixOf_mono_append w hpre
          exact this
        have hdrop : ((c :: t) ++ w).drop eot.length = (c :: t).drop eot.length ++ w :=
          List.drop_append_of_le_length hlen
        have hlt : ((c :: t).drop eot.length).length < (c :: t).length := by
          simp only [List.length_drop, List.length_cons]
          exact Nat.sub_lt (Nat.succ_pos _) (by decide)
        show removeEot (c :: (t ++ w)) = removeEot (c :: t) ++ w
        rw [removeEot_cons, hpre', if_pos rfl, removeEot_cons, hpre, if_pos rfl]
        have hdrop' : (c :: (t ++ w)).drop eot.length = (c :: t).drop eot.length ++ w := hdrop
        rw [hdrop']
        exact ih _ hlt _ rfl
      | false =>
        have hpre' : eot.isPrefixOf (c :: (t ++ w)) = false := by
          cases hx : eot.isPrefixOf (c :: (t ++ w)) with
          | false => rfl
          | true =>
            have hx' : eot.isPrefixOf ((c :: t) ++ w) = true := hx
            have := isPrefixOf_append_ws eot_noWs hw hx'
            rw [this] at hpre
            exact hpre
        have hlt : t.length < (c :: t).length := by simp
        show removeEot (c :: (t ++ w)) = removeEot (c :: t) ++ w
        rw [removeEot_cons, hpre', removeEot_cons, hpre]
        simp only [Bool.false_eq_true, if_false, List.cons_append]
        rw [ih _ hlt _ rfl]

/-- Stripping before marker removal does not change the final stripped result:
the inner strip in the source is redundant relative to the specification's
description of the extraction. -/
theorem pyStrip_removeEot_pyStrip (x : List Char) :
    pyStrip (removeEot (pyStrip x)) = pyStrip (removeEot x) := by
  obtain ⟨w₁, w₂, h₁, h₂, hx⟩ := pyStrip_exists_sandwich x
  calc pyStrip (removeEot (pyStrip x))
      = pyStrip (removeEot (pyStrip x) ++ w₂) := (pyStrip_append_ws h₂ _).symm
    _ = pyStrip (w₁ ++ (removeEot (pyStrip x) ++ w₂)) := (pyStrip_ws_append h₁ _).symm
    _ = pyStrip (w₁ ++ removeEot (pyStrip x ++ w₂)) := by rw [removeEot_append_ws h₂]
    _ = pyStrip (removeEot (w₁ ++ (pyStrip x ++ w₂))) := by rw [removeEot_ws_append h₁]
    _ = pyStrip (removeEot x) := by
        rw [show w₁ ++ (pyStrip x ++ w₂) = x by rw [← List.append_assoc]; exact hx.symm]

/-- C2: for every string, `extract_model_response` returns, when a role marker
occurs, the substring after the first occurrence of the marker with every
end-of-turn marker removed and surrounding whitespace trimmed, and otherwise
the whitespace-trimmed input itself; in particular on a prompt followed by a
model turn it returns exactly the model turn text. -/
theorem c2_extraction_matches_spec :
    (∀ s : List Char, extract_model_response s = specExtract s) ∧
    extract_model_response ("hi\nmodel\nHELLO<end_of_turn>".toList) = "HELLO".toList := by
  constructor
  · intro s
    unfold extract_model_response specExtract
    split
    · rw [pyStrip_removeEot_pyStrip]
    · split
      · rw [pyStrip_removeEot_pyStrip]
      · rfl
  · decide

/-! Embedding of `CorrectionService.correct_arabic_text`. The two generation
pipelines (the preferred-device one built at initialization and the CPU one
built inside the function) are modelled as oracles from decoding parameters
and prompt to either generated text or a raised exception. -/

/-- Kind of Python exception relevant to the service code: `RuntimeError`
(the only class caught by `correct_arabic_text`), `ValueError` (raised when
the model is not loaded), `HTTPException` with its status code, and any other
exception class. -/
inductive PyExc where
  | runtimeError : PyExc
  | valueError : PyExc
  | httpException : Nat → PyExc
  | otherError : PyExc
deriving DecidableEq, Repr

/-- Decoding parameters passed to a pipeline call: `max_new_tokens` and
`do_sample`. -/
structure GenParams where
  maxNewTokens : Nat
  doSample : Bool
deriving DecidableEq, Repr

/-- Behaviour of the two text-generation pipelines: each call either returns
the full generated text or raises an exception. -/
structure GenEnv where
  gpuGen : GenParams → List Char → Except PyExc (List Char)
  cpuGen : GenParams → List Char → Except PyExc (List Char)

/-- The chat prompt built by `tokenizer.apply_chat_template` with the template
set in `initialize_model`, for the single user message holding the input text,
with the generation prompt appended. -/
def promptOf (text : List Char) : List Char :=
  "<start_of_turn>user\n".toList ++ text ++ "<end_of_turn>\n<start_of_turn>model\n".toList

/-- State of the module-level `CorrectionService` object: the `model_loaded`
attribute (a Python value that the source only ever sets to `False` or `True`,
modelled as `Option Bool` so that the `is not None` test in the health route
is expressible), and whether `pipe` and `tokenizer` hold objects (are not
`None`). -/
structure SvcState where
  model_loaded : Option Bool
  pipe : Bool
  tokenizer : Bool
deriving DecidableEq, Repr

/-- The service state as constructed by `CorrectionService.__init__`:
`model_loaded = False`, `pipe = None`, `tokenizer = None`. -/
def initState : SvcState := ⟨some false, false, false⟩

/-- The service state after a successful `initialize_model`. -/
def loadedState : SvcState := ⟨some true, true, true⟩

/-- Python truthiness of the `model_loaded` attribute value. -/
def pyTruthy : Option Bool → Bool
  | some true => true
  | _ => false

/-- Embedding of `CorrectionService.correct_arabic_text`: raise `ValueError`
when the model is not loaded; otherwise try the primary pipeline with
`max_new_tokens 64, do_sample False` and return its stripped extracted result
when non-empty and different from the stripped input; on a `RuntimeError` from
the primary call, or an empty or unchanged result, call the CPU pipeline with
`max_new_tokens 100, do_sample False` and return its stripped extracted result
when non-empty, the original text otherwise; a `RuntimeError` escaping that is
caught by the outer handler, which returns the original text; every other
exception propagates. -/
def correct_arabic_text (env : GenEnv) (st : SvcState) (text : List Char) :
    Except PyExc (List Char) :=
  if !pyTruthy st.model_loaded || !st.pipe || !st.tokenizer then
    .error .valueError
  else
    let prompt := promptOf text
    let gpuStep : Except PyExc (Option (List Char)) :=
      match env.gpuGen ⟨64, false⟩ prompt with
      | .ok full_text =>
        let result := extract_model_response full_text
        if pyStrip result != [] && pyStrip result != pyStrip text then
          .ok (some (pyStrip result))
        else
          .ok none
      | .error .runtimeError => .ok none
      | .error e => .error e
    let body : Except PyExc (List Char) :=
      match gpuStep with
      | .error e => .error e
      | .ok (some r) => .ok r
      | .ok none =>
        match env.cpuGen ⟨100, false⟩ prompt with
        | .ok full_text =>
          let result := extract_model_response full_text
          if pyStrip result != [] then .ok (pyStrip result) else .ok text
        | .error e => .error e
    match body with
    | .error .runtimeError => .ok text
    | r => r

/-- The fallback step as the (amended) claim describes it: call the CPU
pipeline with the larger cap and deterministic decoding; return its stripped
extracted result when non-empty, the original text when empty, the original
text when it raises a runtime failure; any other exception propagates. -/
def claimFallback (env : GenEnv) (prompt text : List Char) : Except PyExc (List Char) :=
  match env.cpuGen ⟨100, false⟩ prompt with
  | .ok full_text =>
    if pyStrip (extract_model_response full_text) != [] then
      .ok (pyStrip (extract_model_response full_text))
    else .ok text
  | .error .runtimeError => .ok text
  | .error e => .error e

/-- The generation-with-fallback flow as the (amended) claim describes it:
the primary result is returned exactly when non-empty and different from the
trimmed input; a runtime failure of the primary attempt, or an empty or
unchanged result, leads to exactly one fallback attempt; a non-runtime
failure of the primary attempt propagates. -/
def claimFlow (env : GenEnv) (text : List Char) : Except PyExc (List Char) :=
  match env.gpuGen ⟨64, false⟩ (promptOf text) with
  | .ok full_text =>
    if pyStrip (extract_model_response full_text) != [] &&
        pyStrip (extract_model_response full_text) != pyStrip text then
      .ok (pyStrip (extract_model_response full_text))
    else claimFallback env (promptOf text) text
  | .error .runtimeError => claimFallback env (promptOf text) text
  | .error e => .error e

theorem correct_eq_claimFlow (env : GenEnv) (text : List Char) :
    correct_arabic_text env loadedState text = claimFlow env text := by
  unfold correct_arabic_text claimFlow claimFallback
  rw [if_neg (by decide)]
  rcases hg : env.gpuGen ⟨64, false⟩ (promptOf text) with e | full
  · cases e with
    | runtimeError =>
      simp only [hg]
      rcases hc : env.cpuGen ⟨100, false⟩ (promptOf text) with e2 | full2
      · cases e2 <;> simp [hc]
      · simp only [hc]
        cases hb2 : (pyStrip (extract_model_response full2) != []) <;> simp [hb2]
    | valueError => simp [hg]
    | httpException n => simp [hg]
    | otherError => simp [hg]
  · simp only [hg]
    cases hb : (pyStrip (extract_model_response full) != [] &&
        pyStrip (extract_model_response full) != pyStrip text) with
    | true => simp [hb]
    | false =>
      simp only [hb, Bool.false_eq_true, if_false]
      rcases hc : env.cpuGen ⟨100, false⟩ (promptOf text) with e2 | full2
      · cases e2 <;> simp [hc]
      · simp only [hc]
        cases hb2 : (pyStrip (extract_model_response full2) != []) <;> simp [hb2]

/-- A generation environment whose primary pipeline raises an exception that
is not a `RuntimeError` (for example an `OSError` or `ValueError` from the
pipeline call). -/
def envPrimaryOther : GenEnv :=
  ⟨fun _ _ => .error .otherError, fun _ _ => .ok []⟩

/-- A generation environment whose primary pipeline raises a `RuntimeError`
and whose CPU fallback raises an exception that is not a `RuntimeError`. -/
def envFallbackOther : GenEnv :=
  ⟨fun _ _ => .error .runtimeError, fun _ _ => .error .otherError⟩

/-- A generation environment in which both pipelines raise `RuntimeError`. -/
def envAllRuntime : GenEnv :=
  ⟨fun _ _ => .error .runtimeError, fun _ _ => .error .runtimeError⟩

/-- C1 counterexample: with the model loaded, a generation attempt that fails
with an exception other than `RuntimeError` is not absorbed: the call does not
return a string at all, the exception propagates to the caller. -/
theorem c1_counterexample_non_runtime_escapes :
    correct_arabic_text envPrimaryOther loadedState "ab".toList = .error .otherError := by
  rfl

/-- C1 (amended): with the model loaded, as long as every failure raised by
the generation attempts is a `RuntimeError`, `correct_arabic_text` returns a
string and never raises: each failure degrades, at worst, to returning the
unmodified input text. -/
theorem c1_runtime_failures_always_degrade (env : GenEnv) (text : List Char)
    (hg : ∀ p pr e, env.gpuGen p pr = .error e → e = PyExc.runtimeError)
    (hc : ∀ p pr e, env.cpuGen p pr = .error e → e = PyExc.runtimeError) :
    ∃ out, correct_arabic_text env loadedState text = .ok out := by
  rw [correct_eq_claimFlow]
  unfold claimFlow claimFallback
  rcases hcpu : env.cpuGen ⟨100, false⟩ (promptOf text) with e2 | full2
  · have he2 : e2 = PyExc.runtimeError := hc _ _ _ hcpu
    subst he2
    rcases hgpu : env.gpuGen ⟨64, false⟩ (promptOf text) with e | full
    · have he : e = PyExc.runtimeError := hg _ _ _ hgpu
      subst he
      refine ⟨text, ?_⟩
      simp [hgpu, hcpu]
    · simp only [hgpu]
      cases hb : (pyStrip (extract_model_response full) != [] &&
          pyStrip (extract_model_response full) != pyStrip text) with
      | true => exact ⟨pyStrip (extract_model_response full), by simp [hb]⟩
      | false => exact ⟨text, by simp [hb, hcpu]⟩
  · rcases hgpu : env.gpuGen ⟨64, false⟩ (promptOf text) with e | full
    · have he : e = PyExc.runtimeError := hg _ _ _ hgpu
      subst he
      simp only [hgpu, hcpu]
      cases hb2 : (pyStrip (extract_model_response full2) != []) with
      | true => exact ⟨pyStrip (extract_model_response full2), by simp [hb2]⟩
      | false => exact ⟨text, by simp [hb2]⟩
    · simp only [hgpu]
      cases hb : (pyStrip (extract_model_response full) != [] &&
          pyStrip (extract_model_response full) != pyStrip text) with
      | true => exact ⟨pyStrip (extract_model_response full), by simp [hb]⟩
      | false =>
        simp only [hb, Bool.false_eq_true, if_false, hcpu]
        cases hb2 : (pyStrip (extract_model_response full2) != []) with
        | true => exact ⟨pyStrip (extract_model_response full2), by simp [hb2]⟩
        | false => exact ⟨text, by simp [hb2]⟩

/-- C1 witness: with both pipelines failing with `RuntimeError` on every
call, the corrected theorem applies and the call indeed returns a string. -/
theorem c1_witness :
    ∃ out, correct_arabic_text envAllRuntime loadedState "ab".toList = .ok out :=
  c1_runtime_failures_always_degrade envAllRuntime "ab".toList
    (fun _ _ e h => by injection h with h; exact h.symm)
    (fun _ _ e h => by injection h with h; exact h.symm)

/-- C3 counterexample: when the primary attempt fails with a `RuntimeError`
and the CPU fallback then fails with an exception that is not a
`RuntimeError`, the call does not return the original input text as the claim
states: the fallback failure propagates. -/
theorem c3_counterexample_fallback_failure_escapes :
    correct_arabic_text envFallbackOther loadedState "ab".toList = .error .otherError := by
  rfl

/-- C3 (amended): with the model loaded, `correct_arabic_text` implements
exactly the claimed flow: the primary attempt runs with `max_new_tokens 64`
and non-sampled decoding and its stripped result is returned precisely when
non-empty and different from the stripped input; on a primary `RuntimeError`
or an empty or unchanged primary result, exactly one retry runs on the CPU
pipeline with `max_new_tokens 100` and non-sampled decoding, whose non-empty
stripped result is returned, the original input being returned when the
fallback result is empty or the fallback raises a `RuntimeError`; a
non-runtime failure of either attempt propagates. -/
theorem c3_generation_fallback_flow (env : GenEnv) (text : List Char) :
    correct_arabic_text env loadedState text = claimFlow env text :=
  correct_eq_claimFlow env text

/-! Embedding of the persistence layer (`DatabaseService`) and of the API and
web routes. A correction record mirrors the row shape of the hosted table;
the hosted store itself is an external collaborator, so its calls appear as
oracle outcomes (either data or a raised exception). -/

/-- A stored correction record, as in `CorrectionInDB` and the hosted table:
id, original text, corrected text, creation timestamp (modelled as a number). -/
structure CorrectionInDB where
  id : Nat
  original_text : List Char
  corrected_text : List Char
  created_at : Nat
deriving DecidableEq, Repr

/-- Payload of an insert, as in `CorrectionCreate`. -/
structure CorrectionCreate where
  original_text : List Char
  corrected_text : List Char
deriving DecidableEq, Repr

/-- Rows matched (and deleted) by the store call
`supabase.table(...).delete().eq("id", id).execute()` on a table holding the
given rows: this is the `result.data` list the service inspects. -/
def storeDeleteRows (table : List CorrectionInDB) (id : Nat) : List CorrectionInDB :=
  table.filter (fun r => r.id == id)

/-- Embedding of `DatabaseService.delete_correction`, parameterized by the
outcome of the store call: on data it reports whether any row was deleted; a
raised exception of any class is caught by the `except Exception` handler,
logged, and turned into `False`. The result type still allows an exception so
that totality is a statement, not a typing artifact. -/
def db_delete_correction (callOutcome : Except PyExc (List CorrectionInDB)) :
    Except PyExc Bool :=
  match callOutcome with
  | .ok data => .ok (decide (0 < data.length))
  | .error _ => .ok false

/-- C10: `DatabaseService.delete_correction` is total: for every outcome of
the store call it returns a boolean and never raises; every store-level
failure is absorbed into the result `False`, which is exactly the result for
deleting a nonexistent id (empty matched-row list), so the two are
indistinguishable at the service boundary. -/
theorem c10_delete_total_and_absorbing :
    (∀ o : Except PyExc (List CorrectionInDB), ∃ b, db_delete_correction o = .ok b) ∧
    (∀ e : PyExc, db_delete_correction (.error e) = .ok false) ∧
    db_delete_correction (.ok (storeDeleteRows [] 1)) = .ok false := by
  refine ⟨fun o => ?_, fun e => rfl, rfl⟩
  cases o with
  | ok data => exact ⟨decide (0 < data.length), rfl⟩
  | error e => exact ⟨false, rfl⟩

/-- Descending creation-time order on records. -/
def createdDesc (a b : CorrectionInDB) : Prop := b.created_at ≤ a.created_at

instance : DecidableRel createdDesc := fun a b => Nat.decLe b.created_at a.created_at

instance : IsTotal CorrectionInDB createdDesc :=
  ⟨fun a b => le_total b.created_at a.created_at⟩

instance : IsTrans CorrectionInDB createdDesc :=
  ⟨fun _ _ _ hab hbc => le_trans hbc hab⟩

/-- Embedding of `DatabaseService.get_all_corrections`: the service issues
`select("*").order("created_at", desc=True)` against the hosted table, which
returns the table rows sorted by `created_at` descending; the sort requested
from the external store is modelled as a sort of the table's rows. -/
def get_all_corrections (table : List CorrectionInDB) : List CorrectionInDB :=
  List.insertionSort createdDesc table

/-- C8: the list operation returns all stored records, and in every pair of
adjacent returned records the earlier one's creation timestamp is at least
the later one's (newest first). -/
theorem c8_list_ordering_newest_first :
    (∀ table : List CorrectionInDB,
      List.Chain' (fun a b => b.created_at ≤ a.created_at) (get_all_corrections table)) ∧
    (∀ table : List CorrectionInDB, (get_all_corrections table).Perm table) := by
  constructor
  · intro table
    show List.Chain' createdDesc (get_all_corrections table)
    have hs : List.Sorted createdDesc (get_all_corrections table) :=
      List.sorted_insertionSort createdDesc table
    exact List.chain'_iff_pairwise.2 hs
  · intro table
    exact List.perm_insertionSort createdDesc table

/-- Validation error raised on `TextCorrectionRequest.text`. -/
inductive ValErr where
  | tooShort : ValErr
  | tooLong : ValErr
  | emptyText : ValErr
deriving DecidableEq, Repr

/-- Embedding of the pydantic validation of `TextCorrectionRequest.text`:
the field constraints `min_length=1, max_length=5000` on the raw value,
then the `validate_text` validator, which rejects empty or whitespace-only
text and returns `v.strip()`. -/
def validate_request_text (raw : List Char) : Except ValErr (List Char) :=
  if raw.length < 1 then .error .tooShort
  else if 5000 < raw.length then .error .tooLong
  else if raw.isEmpty || (pyStrip raw).isEmpty then .error .emptyText
  else .ok (pyStrip raw)

/-- Behaviour of the two collaborators the route handlers call:
`correction_service.correct_arabic_text` and
`database_service.create_correction`. -/
structure RouteEnv where
  correct : List Char → Except PyExc (List Char)
  create : CorrectionCreate → Except PyExc CorrectionInDB

/-- Calls a handler made to its collaborators, in order: the texts passed to
inference and the payloads passed to the store insert. -/
structure RouteTrace where
  inferArgs : List (List Char)
  createArgs : List CorrectionCreate
deriving DecidableEq, Repr

/-- Response body of a successful `POST /gec/correct`, as in
`TextCorrectionResponse`. -/
structure TextCorrectionResponse where
  id : Nat
  original_text : List Char
  corrected_text : List Char
  timestamp : Nat
deriving DecidableEq, Repr

/-- Outcome of the JSON `POST /gec/correct` handler: a 200 response body, or
an error response with its HTTP status code. -/
inductive ApiResult where
  | success : TextCorrectionResponse → ApiResult
  | failure : Nat → ApiResult
deriving DecidableEq, Repr

/-- Embedding of the `correct_text` handler in `app/api/routes.py`, applied
to the already-validated request text. Inside the `try` block: raise a 503
`HTTPException` when `pipe` or `tokenizer` is unset, otherwise run inference,
insert, and build the response. The trailing `except Exception` catches every
exception raised in the block, including the 503 `HTTPException` itself, and
raises a 500 `HTTPException` instead. -/
def api_correct_text (env : RouteEnv) (st : SvcState) (reqText : List Char) :
    ApiResult × RouteTrace :=
  let step : Except PyExc TextCorrectionResponse × RouteTrace :=
    if !st.pipe || !st.tokenizer then
      (.error (.httpException 503), ⟨[], []⟩)
    else
      match env.correct reqText with
      | .error e => (.error e, ⟨[reqText], []⟩)
      | .ok corrected =>
        let cc : CorrectionCreate := ⟨reqText, corrected⟩
        match env.create cc with
        | .error e => (.error e, ⟨[reqText], [cc]⟩)
        | .ok row => (.ok ⟨row.id, reqText, corrected, row.created_at⟩, ⟨[reqText], [cc]⟩)
  match step with
  | (.ok resp, tr) => (.success resp, tr)
  | (.error _, tr) => (.failure 500, tr)

/-- Response of `GET /gec/health`, as in `HealthResponse`. -/
structure HealthResponse where
  status : List Char
  timestamp : Nat
  model_loaded : Bool
deriving DecidableEq, Repr

/-- Embedding of the `health_check` handler in `app/api/routes.py`. The
`model_loaded` field is computed by the expression
`correction_service.model_loaded is not None` on the service attribute. -/
def health_check (st : SvcState) (now : Nat) : HealthResponse :=
  ⟨"healthy".toList, now, st.model_loaded.isSome⟩

/-- Embedding of the `delete_correction` handler in `app/api/routes.py`,
parameterized by the outcome of the `database_service.delete_correction`
call, returning the resulting HTTP status: inside the `try` block a `False`
from the service raises a 404 `HTTPException`, but the trailing
`except Exception` catches every exception raised in the block, the 404
included, and raises a 500 `HTTPException`; a `True` completes the handler,
which yields 204. -/
def api_delete_correction (dbOutcome : Except PyExc Bool) : Nat :=
  let body : Except PyExc Unit :=
    match dbOutcome with
    | .ok true => .ok ()
    | .ok false => .error (.httpException 404)
    | .error e => .error e
  match body with
  | .ok _ => 204
  | .error _ => 500

/-- Pages rendered by the web routes: the index page carrying an error
message, or the correction result page. -/
inductive WebPage where
  | indexError : WebPage
  | correctionPage : List Char → List Char → Nat → WebPage
deriving DecidableEq, Repr

/-- Embedding of the `correct_text_web` handler in `app/web/routes.py`: the
raw form text is used as is (no length or emptiness validation); when
`model_loaded` is falsy the index page is rendered with an error, otherwise
inference and insert run and any exception renders the index page with an
error. -/
def web_correct_text (env : RouteEnv) (st : SvcState) (text : List Char) :
    WebPage × RouteTrace :=
  if !pyTruthy st.model_loaded then (.indexError, ⟨[], []⟩)
  else
    match env.correct text with
    | .error _ => (.indexError, ⟨[text], []⟩)
    | .ok corrected =>
      let cc : CorrectionCreate := ⟨text, corrected⟩
      match env.create cc with
      | .error _ => (.indexError, ⟨[text], [cc]⟩)
      | .ok row => (.correctionPage text corrected row.id, ⟨[text], [cc]⟩)

/-- A concrete collaborator environment: inference echoes its input and the
insert succeeds with row id 1 and timestamp 0. -/
def cRouteEnv : RouteEnv :=
  ⟨fun t => .ok t, fun c => .ok ⟨1, c.original_text, c.corrected_text, 0⟩⟩

/-- C4: in the initial state (model not loaded) a valid request to
`POST /gec/correct` is answered with status 500, not the claimed 503: the
503 `HTTPException` raised inside the `try` block is caught by the blanket
`except Exception` handler and re-raised as a 500. -/
theorem c4_unloaded_request_yields_500 :
    (api_correct_text cRouteEnv initState "ab".toList).1 = .failure 500 ∧
    (api_correct_text cRouteEnv initState "ab".toList).1 ≠ .failure 503 := by
  constructor
  · rfl
  · decide

/-- C5: in the initial state the `model_loaded` attribute is `False`, yet the
health response reports `model_loaded = true`, because the handler computes
`model_loaded is not None` and the attribute is never `None`. -/
theorem c5_health_reports_loaded_when_unloaded :
    initState.model_loaded = some false ∧
    (health_check initState 0).model_loaded = true := by
  exact ⟨rfl, rfl⟩

/-- C6: deleting a nonexistent id yields status 500, not the claimed 404:
the service returns `False` for the empty matched-row list, the handler
raises a 404 `HTTPException`, and the blanket `except Exception` handler
catches it and re-raises a 500; deleting an existing id still yields 204. -/
theorem c6_delete_nonexistent_yields_500 :
    api_delete_correction (db_delete_correction (.ok (storeDeleteRows [] 1))) = 500 ∧
    api_delete_correction (.ok true) = 204 := by
  exact ⟨rfl, rfl⟩

theorem validateOk_props {raw t : List Char}
    (hv : validate_request_text raw = .ok t) :
    t = pyStrip raw ∧ (pyStrip raw).isEmpty = false ∧ raw.length ≤ 5000 := by
  unfold validate_request_text at hv
  split_ifs at hv with h1 h2 h3
  cases hv
  refine ⟨rfl, ?_, by omega⟩
  cases hb : (pyStrip raw).isEmpty
  · rfl
  · exact absurd (by simp [hb]) h3

/-- C9: for every accepted request raw text, the validated text handed to the
handler equals the stripped submission, and it is exactly what is passed to
inference, persisted as the original text, and echoed as the response's
original text. -/
theorem c9_accepted_text_is_stripped (raw t : List Char) (env : RouteEnv)
    (hv : validate_request_text raw = .ok t) :
    (api_correct_text env loadedState t).2.inferArgs = [pyStrip raw] ∧
    (∀ cc ∈ (api_correct_text env loadedState t).2.createArgs,
      cc.original_text = pyStrip raw) ∧
    (∀ resp, (api_correct_text env loadedState t).1 = .success resp →
      resp.original_text = pyStrip raw) := by
  obtain ⟨hts, -, -⟩ := validateOk_props hv
  subst hts
  unfold api_correct_text
  rw [if_neg (by decide)]
  rcases hc : env.correct (pyStrip raw) with e | corrected
  · refine ⟨by simp [hc], ?_, ?_⟩
    · intro cc hcc
      simp [hc] at hcc
    · intro resp hresp
      simp [hc] at hresp
  · rcases hcr : env.create ⟨pyStrip raw, corrected⟩ with e2 | row
    · refine ⟨by simp [hc, hcr], ?_, ?_⟩
      · intro cc hcc
        simp [hc, hcr] at hcc
        rw [hcc]
      · intro resp hresp
        simp [hc, hcr] at hresp
    · refine ⟨by simp [hc, hcr], ?_, ?_⟩
      · intro cc hcc
        simp [hc, hcr] at hcc
        rw [hcc]
      · intro resp hresp
        simp [hc, hcr] at hresp
        rw [← hresp]

/-- C9 witness: the concrete submission with surrounding spaces validates to
its stripped form, and the theorem applies to it. -/
theorem c9_witness :
    (api_correct_text cRouteEnv loadedState "ab".toList).2.inferArgs =
      [pyStrip " ab ".toList] ∧
    (∀ cc ∈ (api_correct_text cRouteEnv loadedState "ab".toList).2.createArgs,
      cc.original_text = pyStrip " ab ".toList) ∧
    (∀ resp, (api_correct_text cRouteEnv loadedState "ab".toList).1 = .success resp →
      resp.original_text = pyStrip " ab ".toList) :=
  c9_accepted_text_is_stripped " ab ".toList "ab".toList cRouteEnv (by rfl)

/-- C7 counterexample: a whitespace-only submission through the web form
route is not rejected: with the model loaded, inference is invoked on the
single-space text itself. -/
theorem c7_counterexample_web_runs_inference_on_whitespace :
    (web_correct_text cRouteEnv loadedState [' ']).2.inferArgs = [[' ']] ∧
    pyStrip [' '] = [] := by
  exact ⟨rfl, by decide⟩

/-- C7 (amended): for the JSON API route the pydantic validation rejects
whitespace-only and overlong text before any inference, and accepted text is
non-empty after stripping and within the maximum; the web form route,
however, performs no such validation and always invokes inference on the raw
submitted text once the model is loaded. -/
theorem c7_api_validates_web_does_not :
    (∀ raw : List Char, (pyStrip raw).isEmpty = true ∨ 5000 < raw.length →
      ∃ e, validate_request_text raw = .error e) ∧
    (∀ raw t : List Char, validate_request_text raw = .ok t →
      t = pyStrip raw ∧ (pyStrip raw).isEmpty = false ∧ raw.length ≤ 5000) ∧
    (∀ (env : RouteEnv) (text : List Char),
      (web_correct_text env loadedState text).2.inferArgs = [text]) := by
  refine ⟨?_, fun raw t hv => validateOk_props hv, ?_⟩
  · intro raw h
    unfold validate_request_text
    by_cases h1 : raw.length < 1
    · exact ⟨.tooShort, by simp [h1]⟩
    · by_cases h2 : 5000 < raw.length
      · exact ⟨.tooLong, by simp [h1, h2]⟩
      · rcases h with hh | hh
        · exact ⟨.emptyText, by simp [h1, h2, hh]⟩
        · exact absurd hh h2
  · intro env text
    unfold web_correct_text
    rw [if_neg (by decide)]
    rcases hc : env.correct text with e | corrected
    · simp [hc]
    · rcases hcr : env.create ⟨text, corrected⟩ with e2 | row <;> simp [hc, hcr]

/-- C7 witness: the amended theorem applied to the single-space submission,
which the API validation rejects. -/
theorem c7_witness :
    ∃ e, validate_request_text [' '] = .error e :=
  c7_api_validates_web_does_not.1 [' '] (Or.inl (by decide))
